import Mathlib

/-!
Shallow embedding of the CORD-19 metadata explorer
(`src/cord19_analysis.py`, `src/app.py`).

Tables are lists of `Row`; a pandas cell holding NaN/NaT/None is `none`.
Library calls (`pd.to_datetime`, `str.split`, `.str.lower/.strip`,
`value_counts`, `nunique`, `idxmax`, `mean`) are modelled by executable
Lean functions defined below, cell-wise or column-wise, matching pandas
semantics on the value domains that occur in this program.
-/

/-- Model of Python `str.strip()` on the character list: drop leading and
trailing whitespace. -/
def stripChars (cs : List Char) : List Char :=
  ((cs.dropWhile Char.isWhitespace).reverse.dropWhile Char.isWhitespace).reverse

/-- Model of Python `str.strip()`. -/
def pyStrip (s : String) : String :=
  ⟨stripChars s.toList⟩

/-- Model of Python `str.lower()` (per-character lowercasing, which is what
the ASCII journal names of this program exercise). -/
def pyLower (s : String) : String :=
  ⟨s.toList.map Char.toLower⟩

/-- Split a character list at every occurrence of `sep`, keeping empty
segments (as Python `str.split(sep)` does). -/
def splitOnChar (sep : Char) : List Char → List (List Char)
  | [] => [[]]
  | c :: cs =>
    if c = sep then [] :: splitOnChar sep cs
    else
      match splitOnChar sep cs with
      | [] => [[c]]
      | t :: ts => (c :: t) :: ts

/-- Split a character list at whitespace, keeping empty segments. -/
def splitOnWs : List Char → List (List Char)
  | [] => [[]]
  | c :: cs =>
    if c.isWhitespace then [] :: splitOnWs cs
    else
      match splitOnWs cs with
      | [] => [[c]]
      | t :: ts => (c :: t) :: ts

/-- Model of Python `str.split()` with no arguments: split on whitespace
runs and discard empty tokens. -/
def pySplitWs (s : String) : List String :=
  ((splitOnWs s.toList).filter (fun t => t ≠ [])).map (fun cs => ⟨cs⟩)

/-- Numeric value of an all-digit, non-empty character list; `none`
otherwise. -/
def digitsVal (cs : List Char) : Option Nat :=
  if cs ≠ [] ∧ cs.all Char.isDigit then
    some (cs.foldl (fun n c => 10 * n + (c.toNat - 48)) 0)
  else none

/-- A calendar date as pandas `Timestamp` stores it (only the fields this
program reads). -/
structure Date where
  year : Int
  month : Nat
  day : Nat
deriving DecidableEq, Repr

/-- Model of the library call `pd.to_datetime` on a single string: accept
`YYYY`, `YYYY-MM`, `YYYY-MM-DD` with a four-digit year and in-range month
and day, rejecting everything else (the program only feeds it ISO-style
dates or garbage like `"invalid"`). -/
def parseDateStr (s : String) : Option Date :=
  match splitOnChar '-' (pyStrip s).toList with
  | [y] =>
    match digitsVal y with
    | some yn => if y.length = 4 then some ⟨yn, 1, 1⟩ else none
    | none => none
  | [y, m] =>
    match digitsVal y, digitsVal m with
    | some yn, some mn =>
      if y.length = 4 ∧ 1 ≤ mn ∧ mn ≤ 12 then some ⟨yn, mn, 1⟩ else none
    | _, _ => none
  | [y, m, d] =>
    match digitsVal y, digitsVal m, digitsVal d with
    | some yn, some mn, some dn =>
      if y.length = 4 ∧ 1 ≤ mn ∧ mn ≤ 12 ∧ 1 ≤ dn ∧ dn ≤ 31 then
        some ⟨yn, mn, dn⟩
      else none
    | _, _, _ => none
  | _ => none

/-- A value the `publish_time` column can hold: the raw CSV string, or the
datetime that `pd.to_datetime` coerces it to. -/
inductive PTVal where
  | str : String → PTVal
  | date : Date → PTVal
deriving DecidableEq, Repr

/-- One row of the dataframe.  The named fields are the columns the program
reads; `others` carries the remaining CSV columns, which the code never
touches.  The three derived columns are `Option`-valued like any pandas
column (a raw row simply has them absent/null). -/
structure Row where
  title : Option String := none
  abstract : Option String := none
  journal : Option String := none
  publish_time : Option PTVal := none
  source_x : Option String := none
  others : List (String × Option String) := []
  year : Option Int := none
  abstract_word_count : Option Nat := none
  journal_clean : Option String := none
deriving DecidableEq, Repr

/-- Model of pd.to_datetime on one cell value. -/
def pyToDatetimeVal : PTVal → Option Date
  | .str s => parseDateStr s
  | .date d => some d

/-- Model of pd.to_datetime(col, errors=coerce) on one cell: null stays NaT,
a parsable value becomes a datetime, an unparsable one becomes NaT. -/
def toDatetimeCoerce (c : Option PTVal) : Option PTVal :=
  match c with
  | none => none
  | some v => (pyToDatetimeVal v).map PTVal.date

/-- Projection .dt.year on one (already coerced) cell. -/
def dtYear (c : Option PTVal) : Option Int :=
  match c with
  | some (.date d) => some d.year
  | _ => none

/-- Model of Series.fillna on one cell. -/
def fillna (c : Option Int) (v : Int) : Option Int :=
  some (c.getD v)

/-- Word count of the `abstract` cell:
`lambda x: len(str(x).split()) if pd.notnull(x) else 0`. -/
def abstractWordCount (a : Option String) : Nat :=
  match a with
  | some s => (pySplitWs s).length
  | none => 0

/-- One row of `CORD19Analyzer.clean_data` (src/cord19_analysis.py lines
59-74): coerce `publish_time`, derive `year` (with 2020 default),
`abstract_word_count`, and `journal_clean = journal.str.lower().str.strip()`. -/
def cleanRow (r : Row) : Row :=
  let pt := toDatetimeCoerce r.publish_time
  { r with
    publish_time := pt
    year := fillna (dtYear pt) 2020
    abstract_word_count := some (abstractWordCount r.abstract)
    journal_clean := r.journal.map (fun s => pyStrip (pyLower s)) }

/-- Whole-table `CORD19Analyzer.clean_data`: every derivation
is per-row (`df.copy()` plus column assignments). -/
def clean_data (df : List Row) : List Row :=
  df.map cleanRow

/-- Number of occurrences of `k` in `l` (pandas per-value frequency). -/
def cnt {α : Type} [DecidableEq α] (k : α) (l : List α) : Nat :=
  l.countP (fun x => decide (x = k))

/-- Distinct values of a list in first-encounter order; `seen` accumulates
values already emitted.  This is the key order a pandas hash table
produces. -/
def keysInOrderAux {α : Type} [DecidableEq α] (seen : List α) : List α → List α
  | [] => []
  | x :: xs =>
    if x ∈ seen then keysInOrderAux seen xs
    else x :: keysInOrderAux (x :: seen) xs

/-- Distinct values of a list in first-encounter order. -/
def keysInOrder {α : Type} [DecidableEq α] (l : List α) : List α :=
  keysInOrderAux [] l

/-- Per-value frequencies in first-encounter order (the un-sorted content
of `Series.value_counts()`). -/
def countsInOrder {α : Type} [DecidableEq α] (l : List α) : List (α × Nat) :=
  (keysInOrder l).map (fun k => (k, cnt k l))

/-- Insert `x` into `m` in front of the first element `y` with `le x y`;
used by the stable sort below. -/
def insertSorted {α : Type} (le : α → α → Bool) (x : α) : List α → List α
  | [] => [x]
  | y :: ys => if le x y then x :: y :: ys else y :: insertSorted le x ys

/-- Stable insertion sort with respect to the total preorder `le`.  Models
the sort inside `value_counts` / `sort_index`. -/
def sortBy {α : Type} (le : α → α → Bool) : List α → List α
  | [] => []
  | x :: xs => insertSorted le x (sortBy le xs)

/-- Descending-by-count order on frequency entries. -/
def countLE {α : Type} (a b : α × Nat) : Bool :=
  decide (b.2 ≤ a.2)

/-- Ascending-by-key order on year-frequency entries (`sort_index`). -/
def yearLE (a b : Int × Nat) : Bool :=
  decide (a.1 ≤ b.1)

/-- Model of `Series.value_counts()` (with its default `dropna` handled by
the caller): frequencies sorted by descending count, ties kept in
first-encounter order. -/
def valueCounts {α : Type} [DecidableEq α] (l : List α) : List (α × Nat) :=
  sortBy countLE (countsInOrder l)

/-- The non-null entries of the `journal_clean` column. -/
def journalsOf (df : List Row) : List String :=
  df.filterMap Row.journal_clean

/-- Top-journal frequencies: df_clean[journal_clean].value_counts().head(top_n)
(src/app.py line 125). -/
def topJournals (df : List Row) (n : Nat) : List (String × Nat) :=
  (valueCounts (journalsOf df)).take n

/-- Model of `Series.nunique()` on an Option-valued column: distinct
non-null values. -/
def nunique (col : List (Option String)) : Nat :=
  (keysInOrder (col.filterMap id)).length

/-- The boolean mask (df[year] >= lo) & (df[year] <= hi) on one row;
a null year compares false, as NaN does. -/
def rowInRange (lo hi : Int) (r : Row) : Bool :=
  match r.year with
  | some y => decide (lo ≤ y) && decide (y ≤ hi)
  | none => false

/-- Model of Series.idxmax as a scan: the leftmost entry whose count is maximal. -/
def idxmaxRec : List (Int × Nat) → Option (Int × Nat)
  | [] => none
  | e :: es =>
    match idxmaxRec es with
    | none => some e
    | some m => if e.2 < m.2 then some m else some e

/-- The aggregate the Publication Trends view computes
(src/app.py lines 91-114). -/
structure TrendsAgg where
  filtered : List Row
  yearly : List (Int × Nat)
  totalInRange : Nat
  meanCount : Option ℚ
  maxYear : Option Int

/-- View computation of show_publication_trends without the plotting calls: filter to the
year range, `value_counts().sort_index()`, row total, mean of the yearly
counts (`NaN` = `none` on an empty range), and `idxmax` (which raises on an
empty range, modelled as `none`). -/
def publicationTrends (df : List Row) (lo hi : Int) : TrendsAgg :=
  let filtered := df.filter (rowInRange lo hi)
  let ys := filtered.filterMap Row.year
  let yearly := sortBy yearLE (countsInOrder ys)
  { filtered := filtered
    yearly := yearly
    totalInRange := filtered.length
    meanCount :=
      if yearly.length = 0 then none
      else some ((yearly.map (fun e => (e.2 : ℚ))).sum / (yearly.length : ℚ))
    maxYear := (idxmaxRec yearly).map Prod.fst }

/-- What the file system holds at the configured path when
`pd.read_csv` runs. -/
inductive FileOutcome where
  | found : List Row → FileOutcome
  | missing : FileOutcome
  | unreadable : FileOutcome
deriving DecidableEq

/-- Python exceptions relevant to `load_data`. -/
inductive PyExc where
  | fileNotFound : PyExc
  | permissionError : PyExc
deriving DecidableEq

/-- Model of pd.read_csv: the table on success, `FileNotFoundError` for an absent
file, another `OSError` (e.g. `PermissionError`) for a present but
unreadable one. -/
def read_csv : FileOutcome → Except PyExc (List Row)
  | .found df => .ok df
  | .missing => .error .fileNotFound
  | .unreadable => .error .permissionError

/-- Outcome of `CORD19Analyzer.load_data` (src/cord19_analysis.py lines
21-29): `True` with the table, `False` after catching
`FileNotFoundError`, or an uncaught exception. -/
inductive LoadResult where
  | success : List Row → LoadResult
  | failure : LoadResult
  | raised : PyExc → LoadResult
deriving DecidableEq

/-- Loader load_data: try pd.read_csv and return True with the table;
catch FileNotFoundError and return False. -/
def load_data (fo : FileOutcome) : LoadResult :=
  match read_csv fo with
  | .ok df => .success df
  | .error .fileNotFound => .failure
  | .error e => .raised e

/-- The six navigation sections of the dashboard. -/
inductive AppSection where
  | overview | trends | journals | titles | sources | rawData
deriving DecidableEq

/-- Observable outcome of one `main` run (src/app.py lines 18-51). -/
inductive MainOutcome where
  | viewShown : AppSection → List Row → MainOutcome
  | blockedWithError : MainOutcome
  | crashed : PyExc → MainOutcome
deriving DecidableEq

/-- Model of main: initialize the analyzer; on `load_data() == False` show
`st.error` and `return` before any view dispatch; on success run
`clean_data` and dispatch the selected section against the clean table.
An exception escaping `load_data` aborts the script run. -/
def mainModel (fo : FileOutcome) (sec : AppSection) : MainOutcome :=
  match load_data fo with
  | .success df => .viewShown sec (clean_data df)
  | .failure => .blockedWithError
  | .raised e => .crashed e

/-- Coercing the `publish_time` column twice is the same as coercing it
once: after one pass the cell is a datetime or NaT, and `pd.to_datetime`
is the identity on both. -/
theorem toDatetimeCoerce_idem (c : Option PTVal) :
    toDatetimeCoerce (toDatetimeCoerce c) = toDatetimeCoerce c := by
  match c with
  | none => rfl
  | some (.date d) => rfl
  | some (.str s) =>
    simp only [toDatetimeCoerce, pyToDatetimeVal]
    cases parseDateStr s <;> rfl

/-- Cleaning a single row twice equals cleaning it once. -/
theorem cleanRow_idem (r : Row) : cleanRow (cleanRow r) = cleanRow r := by
  simp [cleanRow, toDatetimeCoerce_idem]

/-- The scenario table of claim C1: three rows whose `publish_time` raw
strings are "2020-03-01", "invalid", "2021-07-15". -/
def dfScenario1 : List Row :=
  [{ publish_time := some (.str "2020-03-01") },
   { publish_time := some (.str "invalid") },
   { publish_time := some (.str "2021-07-15") }]

/-- The scenario table of claim C7: abstracts None, "one two three", "". -/
def dfScenario7 : List Row :=
  [{ abstract := none },
   { abstract := some "one two three" },
   { abstract := some "" }]

/-- The scenario table of claim C8: journals " NEJM ", "nejm", None. -/
def dfScenario8 : List Row :=
  [{ journal := some " NEJM " },
   { journal := some "nejm" },
   { journal := none }]

/-- A raw row whose `publish_time` is the unparsable string "invalid". -/
def rowInvalidPT : Row :=
  { publish_time := some (.str "invalid") }

/-- A raw row with a null `publish_time`. -/
def rowNonePT : Row :=
  { }

/-- Claim C1: the derived `year` of the clean table is parsed from `publish_time`,
defaults to 2020 when `publish_time` is missing or unparsable, is defined
(non-null) for every row, and on the 3-row scenario table yields
[2020, 2020, 2021]. -/
theorem clean_year_defined_and_parsed :
    (∀ df : List Row, ∀ r ∈ clean_data df, ∃ n : Int, r.year = some n)
  ∧ (∀ r : Row, ∀ s d, r.publish_time = some (.str s) → parseDateStr s = some d →
      (cleanRow r).year = some d.year)
  ∧ (∀ r : Row, r.publish_time = none → (cleanRow r).year = some 2020)
  ∧ (∀ r : Row, ∀ s, r.publish_time = some (.str s) → parseDateStr s = none →
      (cleanRow r).year = some 2020)
  ∧ (clean_data dfScenario1).map Row.year = [some 2020, some 2020, some 2021] := by
  refine ⟨?_, ?_, ?_, ?_, by decide⟩
  · intro df r hr
    simp only [clean_data, List.mem_map] at hr
    obtain ⟨r', -, rfl⟩ := hr
    exact ⟨_, rfl⟩
  · intro r s d hs hd
    simp [cleanRow, toDatetimeCoerce, pyToDatetimeVal, dtYear, fillna, hs, hd]
  · intro r h
    simp [cleanRow, toDatetimeCoerce, dtYear, fillna, h]
  · intro r s hs hd
    simp [cleanRow, toDatetimeCoerce, pyToDatetimeVal, dtYear, fillna, hs, hd]

/-- Witness for C1: the parse branch applied to the concrete row with
`publish_time` "2021-07-15". -/
theorem clean_year_witness :
    (cleanRow { publish_time := some (.str "2021-07-15") }).year = some 2021 := by
  have h := clean_year_defined_and_parsed.2.1
    { publish_time := some (.str "2021-07-15") } "2021-07-15" ⟨2021, 7, 15⟩ rfl (by decide)
  rw [h]

/-- Claim C2 counterexample: cleaning does not leave the `publish_time`
column unchanged — on the row whose `publish_time` is the string
"invalid", cleaning replaces it by NaT (null). -/
theorem publish_time_changed_counterexample :
    (cleanRow rowInvalidPT).publish_time ≠ rowInvalidPT.publish_time ∧
    (cleanRow rowInvalidPT).publish_time = none := by
  exact ⟨by decide, by decide⟩

/-- Claim C2 as amended: cleaning retains every original column, leaves
every original column except `publish_time` unchanged, and replaces
`publish_time` by its coerced datetime value (null when missing or
unparsable). -/
theorem clean_preserves_columns_except_publish_time (r : Row) :
    (cleanRow r).title = r.title ∧
    (cleanRow r).abstract = r.abstract ∧
    (cleanRow r).journal = r.journal ∧
    (cleanRow r).source_x = r.source_x ∧
    (cleanRow r).others = r.others ∧
    ((cleanRow r).publish_time = none ∨ ∃ d, (cleanRow r).publish_time = some (.date d)) ∧
    (r.publish_time = none → (cleanRow r).publish_time = none) := by
  refine ⟨rfl, rfl, rfl, rfl, rfl, ?_, ?_⟩
  · match h : r.publish_time with
    | none => exact Or.inl (by simp [cleanRow, toDatetimeCoerce, h])
    | some v =>
      match hv : pyToDatetimeVal v with
      | none => exact Or.inl (by simp [cleanRow, toDatetimeCoerce, h, hv])
      | some d => exact Or.inr ⟨d, by simp [cleanRow, toDatetimeCoerce, h, hv]⟩
  · intro h
    simp [cleanRow, toDatetimeCoerce, h]

/-- Witness for the amended C2 at a concrete row with null
`publish_time`. -/
theorem clean_preserves_witness :
    (cleanRow rowNonePT).publish_time = none :=
  (clean_preserves_columns_except_publish_time rowNonePT).2.2.2.2.2.2 rfl

/-- Claim C3 counterexample: on a present but unreadable file,
`load_data` does not return the `False` failure indicator — the
non-`FileNotFoundError` exception propagates to the caller. -/
theorem load_unreadable_counterexample :
    load_data FileOutcome.unreadable ≠ LoadResult.failure ∧
    load_data FileOutcome.unreadable = LoadResult.raised PyExc.permissionError :=
  ⟨by decide, rfl⟩

/-- Claim C3 as amended: `load` returns the raw table on success; when the
file is absent it returns the failure indicator `False` and the caller
blocks with an error message; when the file is present but unreadable the
exception propagates uncaught and aborts initialization; in every failure
case no view executes. -/
theorem load_failure_behavior (fo : FileOutcome) (sec : AppSection) :
    (∀ df, fo = .found df →
      load_data fo = .success df ∧ mainModel fo sec = .viewShown sec (clean_data df))
  ∧ (fo = .missing →
      load_data fo = .failure ∧ mainModel fo sec = .blockedWithError)
  ∧ (fo = .unreadable →
      load_data fo = .raised .permissionError ∧
      mainModel fo sec = .crashed .permissionError)
  ∧ ((∀ df, load_data fo ≠ .success df) →
      ∀ s d, mainModel fo s ≠ .viewShown s d) := by
  cases fo with
  | found df =>
    refine ⟨?_, by simp, by simp, ?_⟩
    · rintro df' ⟨rfl⟩
      exact ⟨rfl, rfl⟩
    · intro h
      exact absurd rfl (h df)
  | missing =>
    refine ⟨by simp, fun _ => ⟨rfl, rfl⟩, by simp, ?_⟩
    intro _ s d h
    exact MainOutcome.noConfusion h
  | unreadable =>
    refine ⟨by simp, by simp, fun _ => ⟨rfl, rfl⟩, ?_⟩
    intro _ s d h
    exact MainOutcome.noConfusion h

/-- Witness for the amended C3: a successful load of a concrete empty
table reaches the selected view. -/
theorem load_failure_witness :
    load_data (FileOutcome.found []) = LoadResult.success [] ∧
    mainModel (FileOutcome.found []) AppSection.overview =
      MainOutcome.viewShown AppSection.overview [] := by
  have h := (load_failure_behavior (.found []) .overview).1 [] rfl
  simpa [clean_data] using h

/-- Claim C4: cleaning preserves the row count. -/
theorem clean_preserves_row_count (df : List Row) :
    (clean_data df).length = df.length := by
  simp [clean_data]

/-- Claim C9: `clean` is idempotent — re-applying it to an already-clean
table returns the same table. -/
theorem clean_idempotent (df : List Row) :
    clean_data (clean_data df) = clean_data df := by
  simp only [clean_data, List.map_map]
  exact List.map_congr_left fun r _ => cleanRow_idem r

/-- Claim C7: `abstract_word_count` is the number of whitespace-separated
tokens of `abstract`, 0 when `abstract` is null, and on the scenario
column [None, "one two three", ""] equals [0, 3, 0]. -/
theorem abstract_word_count_spec :
    (∀ r : Row, ∀ s, r.abstract = some s →
      (cleanRow r).abstract_word_count = some (pySplitWs s).length)
  ∧ (∀ r : Row, r.abstract = none → (cleanRow r).abstract_word_count = some 0)
  ∧ (clean_data dfScenario7).map Row.abstract_word_count = [some 0, some 3, some 0] := by
  refine ⟨?_, ?_, by decide⟩
  · intro r s h
    simp [cleanRow, abstractWordCount, h]
  · intro r h
    simp [cleanRow, abstractWordCount, h]

/-- Witness for C7 at the concrete abstract "one two three". -/
theorem abstract_word_count_witness :
    (cleanRow { abstract := some "one two three" }).abstract_word_count = some 3 := by
  have h := abstract_word_count_spec.1 { abstract := some "one two three" } "one two three" rfl
  rw [h]
  decide

/-- Claim C8: `journal_clean` is `journal` lower-cased and trimmed, null
exactly when `journal` is null; on the scenario column
[" NEJM ", "nejm", None] it equals ["nejm", "nejm", None] with distinct
non-null count 1. -/
theorem journal_clean_spec :
    (∀ r : Row, ∀ s, r.journal = some s →
      (cleanRow r).journal_clean = some (pyStrip (pyLower s)))
  ∧ (∀ r : Row, r.journal = none → (cleanRow r).journal_clean = none)
  ∧ (clean_data dfScenario8).map Row.journal_clean = [some "nejm", some "nejm", none]
  ∧ nunique ((clean_data dfScenario8).map Row.journal_clean) = 1 := by
  refine ⟨?_, ?_, by decide, by decide⟩
  · intro r s h
    simp [cleanRow, h]
  · intro r h
    simp [cleanRow, h]

/-- Witness for C8 at the concrete journal " NEJM ". -/
theorem journal_clean_witness :
    (cleanRow { journal := some " NEJM " }).journal_clean = some "nejm" := by
  have h := journal_clean_spec.1 { journal := some " NEJM " } " NEJM " rfl
  rw [h]
  decide

/-- Membership in the encounter-order key list: exactly the values of the
input that are not in the `seen` accumulator. -/
theorem mem_keysInOrderAux {α : Type} [DecidableEq α] (l : List α) :
    ∀ (seen : List α) (a : α), a ∈ keysInOrderAux seen l ↔ (a ∈ l ∧ a ∉ seen) := by
  induction l with
  | nil => intro seen a; simp [keysInOrderAux]
  | cons x xs ih =>
    intro seen a
    by_cases hx : x ∈ seen
    · simp only [keysInOrderAux, if_pos hx, ih, List.mem_cons]
      constructor
      · rintro ⟨h1, h2⟩; exact ⟨Or.inr h1, h2⟩
      · rintro ⟨h1 | h1, h2⟩
        · exact absurd (h1 ▸ hx) h2
        · exact ⟨h1, h2⟩
    · simp only [keysInOrderAux, if_neg hx, List.mem_cons, ih]
      by_cases ha : a = x
      · subst ha; simp [hx]
      · simp [ha]

/-- Membership in the encounter-order key list. -/
theorem mem_keysInOrder {α : Type} [DecidableEq α] {l : List α} {a : α} :
    a ∈ keysInOrder l ↔ a ∈ l := by
  simp [keysInOrder, mem_keysInOrderAux]

/-- The encounter-order key list has no duplicates. -/
theorem nodup_keysInOrderAux {α : Type} [DecidableEq α] (l : List α) :
    ∀ seen, (keysInOrderAux seen l).Nodup := by
  induction l with
  | nil => intro _; simp [keysInOrderAux]
  | cons x xs ih =>
    intro seen
    by_cases hx : x ∈ seen
    · simpa [keysInOrderAux, hx] using ih seen
    · simp only [keysInOrderAux, if_neg hx]
      rw [List.nodup_cons]
      refine ⟨fun hmem => ?_, ih _⟩
      exact ((mem_keysInOrderAux xs (x :: seen) x).1 hmem).2 (List.mem_cons_self x seen)

/-- The encounter-order key list has no duplicates. -/
theorem nodup_keysInOrder {α : Type} [DecidableEq α] (l : List α) :
    (keysInOrder l).Nodup :=
  nodup_keysInOrderAux l []

/-- Counting in an empty list. -/
theorem cnt_nil {α : Type} [DecidableEq α] (k : α) : cnt k [] = 0 := rfl

/-- Counting after a cons. -/
theorem cnt_cons {α : Type} [DecidableEq α] (k x : α) (l : List α) :
    cnt k (x :: l) = cnt k l + (if x = k then 1 else 0) := by
  simp [cnt, List.countP_cons]

/-- A value that does not occur has count zero. -/
theorem cnt_eq_zero {α : Type} [DecidableEq α] {k : α} {l : List α} (h : k ∉ l) :
    cnt k l = 0 := by
  refine List.countP_eq_zero.2 fun a ha => ?_
  simp only [decide_eq_true_eq]
  rintro rfl
  exact h ha

/-- A value that occurs has positive count. -/
theorem cnt_pos {α : Type} [DecidableEq α] {k : α} {l : List α} (h : k ∈ l) :
    0 < cnt k l :=
  List.countP_pos_iff.2 ⟨k, h, by simp⟩

/-- Sums of pointwise-added maps split. -/
theorem sum_map_add {α : Type} (K : List α) (f g : α → Nat) :
    (K.map (fun k => f k + g k)).sum = (K.map f).sum + (K.map g).sum := by
  induction K with
  | nil => rfl
  | cons k K ih => simp [ih]; omega

/-- The indicator of a value outside the list sums to zero. -/
theorem sum_map_ite_eq_zero {α : Type} [DecidableEq α] (K : List α) (x : α) (hx : x ∉ K) :
    (K.map (fun k => if x = k then 1 else 0)).sum = 0 := by
  induction K with
  | nil => rfl
  | cons k K ih =>
    have hxk : x ≠ k := fun h => hx (h ▸ List.mem_cons_self k K)
    simp only [List.map_cons, List.sum_cons, if_neg hxk]
    rw [ih fun h => hx (List.mem_cons_of_mem k h)]

/-- The indicator of a value inside a duplicate-free list sums to one. -/
theorem sum_map_ite_eq_one {α : Type} [DecidableEq α] (K : List α) (x : α)
    (hK : K.Nodup) (hx : x ∈ K) :
    (K.map (fun k => if x = k then 1 else 0)).sum = 1 := by
  induction K with
  | nil => cases hx
  | cons k K ih =>
    rw [List.nodup_cons] at hK
    by_cases hxk : x = k
    · subst hxk
      rw [List.map_cons, List.sum_cons, sum_map_ite_eq_zero K x hK.1]
      simp
    · rcases List.mem_cons.1 hx with h | h
      · exact absurd h hxk
      · simp only [List.map_cons, List.sum_cons, if_neg hxk]
        rw [ih hK.2 h]

/-- Summing the per-key counts over any duplicate-free covering key list
recovers the length. -/
theorem sum_cnt {α : Type} [DecidableEq α] :
    ∀ (l K : List α), K.Nodup → (∀ x ∈ l, x ∈ K) →
      (K.map (fun k => cnt k l)).sum = l.length := by
  intro l
  induction l with
  | nil => intro K _ _; simp [cnt]
  | cons x xs ih =>
    intro K hK hcov
    have e : K.map (fun k => cnt k (x :: xs)) =
        K.map (fun k => cnt k xs + (if x = k then 1 else 0)) :=
      List.map_congr_left fun k _ => cnt_cons k x xs
    rw [e, sum_map_add, ih K hK fun y hy => hcov y (List.mem_cons_of_mem _ hy),
      sum_map_ite_eq_one K x hK (hcov x (List.mem_cons_self _ _))]
    simp

/-- Membership in the encounter-order frequency list. -/
theorem mem_countsInOrder {α : Type} [DecidableEq α] {l : List α} {e : α × Nat} :
    e ∈ countsInOrder l ↔ (e.1 ∈ l ∧ e.2 = cnt e.1 l) := by
  simp only [countsInOrder, List.mem_map, mem_keysInOrder]
  constructor
  · rintro ⟨k, hk, rfl⟩; exact ⟨hk, rfl⟩
  · rintro ⟨h1, h2⟩
    exact ⟨e.1, h1, by rw [← h2]⟩

/-- The keys of the encounter-order frequency list. -/
theorem map_fst_countsInOrder {α : Type} [DecidableEq α] (l : List α) :
    (countsInOrder l).map Prod.fst = keysInOrder l := by
  rw [countsInOrder, List.map_map]
  have h : (Prod.fst ∘ fun k : α => (k, cnt k l)) = id := rfl
  rw [h, List.map_id]

/-- The frequencies in the encounter-order frequency list sum to the
length of the column. -/
theorem sum_snd_countsInOrder {α : Type} [DecidableEq α] (l : List α) :
    ((countsInOrder l).map Prod.snd).sum = l.length := by
  rw [countsInOrder, List.map_map]
  exact sum_cnt l (keysInOrder l) (nodup_keysInOrder l) fun x hx => mem_keysInOrder.2 hx

/-- Membership after insertion. -/
theorem mem_insertSorted {α : Type} (le : α → α → Bool) (x a : α) :
    ∀ (m : List α), a ∈ insertSorted le x m ↔ a = x ∨ a ∈ m := by
  intro m
  induction m with
  | nil => simp [insertSorted]
  | cons y ys ih =>
    by_cases h : le x y = true
    · simp [insertSorted, h, ih]
    · simp only [insertSorted, if_neg h, List.mem_cons, ih]
      tauto

/-- Insertion permutes a cons. -/
theorem perm_insertSorted {α : Type} (le : α → α → Bool) (x : α) :
    ∀ m, List.Perm (insertSorted le x m) (x :: m) := by
  intro m
  induction m with
  | nil => simp [insertSorted]
  | cons y ys ih =>
    by_cases h : le x y = true
    · simp [insertSorted, h]
    · simp only [insertSorted, if_neg h]
      exact (ih.cons y).trans (List.Perm.swap x y ys)

/-- The stable sort permutes its input. -/
theorem perm_sortBy {α : Type} (le : α → α → Bool) :
    ∀ l, List.Perm (sortBy le l) l := by
  intro l
  induction l with
  | nil => exact List.Perm.refl _
  | cons x xs ih =>
    exact (perm_insertSorted le x (sortBy le xs)).trans (ih.cons x)

/-- Insertion preserves sortedness for a total transitive comparison. -/
theorem pairwise_insertSorted {α : Type} (le : α → α → Bool)
    (htot : ∀ a b, le a b = false → le b a = true)
    (htrans : ∀ a b c, le a b = true → le b c = true → le a c = true) (x : α) :
    ∀ m, m.Pairwise (fun a b => le a b = true) →
      (insertSorted le x m).Pairwise (fun a b => le a b = true) := by
  intro m
  induction m with
  | nil => intro _; simp [insertSorted]
  | cons y ys ih =>
    intro hp
    rw [List.pairwise_cons] at hp
    by_cases h : le x y = true
    · simp only [insertSorted, if_pos h]
      rw [List.pairwise_cons]
      refine ⟨fun b hb => ?_, List.Pairwise.cons hp.1 hp.2⟩
      rcases List.mem_cons.1 hb with rfl | hb
      · exact h
      · exact htrans x y b h (hp.1 b hb)
    · simp only [insertSorted, if_neg h]
      rw [List.pairwise_cons]
      refine ⟨fun b hb => ?_, ih hp.2⟩
      rcases (mem_insertSorted le x b ys).1 hb with hbx | hb
      · rw [hbx]
        exact htot x y (Bool.eq_false_iff.2 h)
      · exact hp.1 b hb

/-- The stable sort sorts, for a total transitive comparison. -/
theorem pairwise_sortBy {α : Type} (le : α → α → Bool)
    (htot : ∀ a b, le a b = false → le b a = true)
    (htrans : ∀ a b c, le a b = true → le b c = true → le a c = true) :
    ∀ l, (sortBy le l).Pairwise (fun a b => le a b = true) := by
  intro l
  induction l with
  | nil => simp [sortBy]
  | cons x xs ih =>
    exact pairwise_insertSorted le htot htrans x (sortBy le xs) ih

/-- Filtering away the inserted element commutes with insertion. -/
theorem filter_insertSorted_neg {α : Type} (le : α → α → Bool) (q : α → Bool)
    (x : α) (hx : q x = false) :
    ∀ m, (insertSorted le x m).filter q = m.filter q := by
  intro m
  induction m with
  | nil => simp [insertSorted, hx]
  | cons y ys ih =>
    by_cases h : le x y = true
    · simp [insertSorted, h, List.filter_cons, hx]
    · simp only [insertSorted, if_neg h, List.filter_cons, ih]

/-- Under the descending-by-count order, an inserted entry lands in front
of every entry with the same count: the count-class filter of the
insertion is the insertion at the front of the count-class filter. -/
theorem filter_insertSorted_countEq {β : Type} (x : β × Nat) :
    ∀ (m : List (β × Nat)),
      (insertSorted countLE x m).filter (fun e => decide (e.2 = x.2)) =
        x :: m.filter (fun e => decide (e.2 = x.2)) := by
  intro m
  induction m with
  | nil => simp [insertSorted]
  | cons y ys ih =>
    by_cases h : countLE x y = true
    · simp [insertSorted, h, List.filter_cons]
    · have hy2 : ¬ (y.2 = x.2) := by
        simp only [countLE, decide_eq_true_eq] at h
        omega
      simp only [insertSorted, if_neg h, List.filter_cons, decide_eq_true_eq,
        if_neg hy2, ih]

/-- Stability of the modelled `value_counts` sort: within one count class,
the sorted list is exactly the encounter-order list. -/
theorem sortBy_filter_countEq {β : Type} (c : Nat) :
    ∀ (l : List (β × Nat)),
      (sortBy countLE l).filter (fun e => decide (e.2 = c)) =
        l.filter (fun e => decide (e.2 = c)) := by
  intro l
  induction l with
  | nil => rfl
  | cons x xs ih =>
    show (insertSorted countLE x (sortBy countLE xs)).filter _ = _
    by_cases hx : x.2 = c
    · subst hx
      rw [filter_insertSorted_countEq x (sortBy countLE xs), ih]
      simp [List.filter_cons]
    · have hq : (decide (x.2 = c) : Bool) = false := by simp [hx]
      rw [filter_insertSorted_neg countLE _ x hq, ih]
      simp [List.filter_cons, hq]

/-- Lowercasing preserves whitespace characters. -/
theorem toLower_whitespace (c : Char) (h : c.isWhitespace = true) :
    (Char.toLower c).isWhitespace = true := by
  simp only [Char.isWhitespace, Bool.or_eq_true, decide_eq_true_eq] at h
  rcases h with ((h | h) | h) | h <;> rw [h] <;> decide

/-- Stripping a list of whitespace characters yields the empty list. -/
theorem stripChars_eq_nil (cs : List Char) (h : ∀ c ∈ cs, c.isWhitespace = true) :
    stripChars cs = [] := by
  have h1 : cs.dropWhile Char.isWhitespace = [] := List.dropWhile_eq_nil_iff.mpr h
  simp [stripChars, h1]

/-- The scenario table of claim C10: one whitespace-only journal and one
ordinary journal. -/
def dfScenario10 : List Row :=
  [{ journal := some "   " }, { journal := some "x" }]

/-- Claim C10: a non-null whitespace-only `journal` cleans to the empty
string (not null), and that empty-string journal participates in the
distinct-journal count and in the frequency ranking like any other
journal. -/
theorem whitespace_journal_empty_string :
    (∀ r : Row, ∀ s, r.journal = some s → (∀ c ∈ s.toList, c.isWhitespace = true) →
      (cleanRow r).journal_clean = some "")
  ∧ nunique ((clean_data dfScenario10).map Row.journal_clean) = 2
  ∧ ("", 1) ∈ topJournals (clean_data dfScenario10) 5 := by
  refine ⟨?_, by decide, by decide⟩
  intro r s hj hw
  have hnil : stripChars (s.toList.map Char.toLower) = [] := by
    refine stripChars_eq_nil _ fun c hc => ?_
    rcases List.mem_map.1 hc with ⟨c', hc', rfl⟩
    exact toLower_whitespace c' (hw c' hc')
  have e1 : pyStrip (pyLower s) = ⟨stripChars (s.toList.map Char.toLower)⟩ := rfl
  simp only [cleanRow, hj]
  show some (pyStrip (pyLower s)) = some ""
  rw [e1, hnil]

/-- Witness for C10 at the concrete three-space journal. -/
theorem whitespace_journal_witness :
    (cleanRow { journal := some "   " }).journal_clean = some "" :=
  whitespace_journal_empty_string.1 { journal := some "   " } "   " rfl (by decide)

/-- The raw table behind the C5 counterexample: two journals that occur
once each. -/
def dfTieJournals : List Row :=
  [{ journal := some "a" }, { journal := some "b" }]

/-- Claim C5 counterexample: on the clean table with journals "a" and "b"
(one paper each) and `top_n = 5`, the top-journal counts are [1, 1] —
descending but not strictly descending. -/
theorem top_journals_not_strictly_descending :
    topJournals (clean_data dfTieJournals) 5 = [("a", 1), ("b", 1)] ∧
    ¬ (topJournals (clean_data dfTieJournals) 5).Pairwise (fun a b => b.2 < a.2) := by
  refine ⟨by decide, fun h => ?_⟩
  rw [show topJournals (clean_data dfTieJournals) 5 = [("a", 1), ("b", 1)] from by decide] at h
  have h1 := List.rel_of_pairwise_cons h (List.mem_singleton_self _)
  omega

/-- Claim C5 as amended: for every clean table and `top_n` in [5, 20], the
journal top-N aggregate has at most `top_n` entries, its counts are
descending (non-strictly: ties are possible and keep first-encounter
order), each entry carries the true frequency of its journal, and no
journal outside the result has a count exceeding any count inside it. -/
theorem top_journals_spec (df : List Row) (n : Nat) (h5 : 5 ≤ n) (h20 : n ≤ 20) :
    (topJournals df n).length ≤ n
  ∧ (topJournals df n).Pairwise (fun a b => b.2 ≤ a.2)
  ∧ (∀ c, List.Sublist ((topJournals df n).filter (fun e => decide (e.2 = c)))
      ((countsInOrder (journalsOf df)).filter (fun e => decide (e.2 = c))))
  ∧ (∀ e ∈ topJournals df n,
      e.1 ∈ journalsOf df ∧ e.2 = cnt e.1 (journalsOf df) ∧ 0 < e.2)
  ∧ (∀ k, k ∉ (topJournals df n).map Prod.fst →
      ∀ e ∈ topJournals df n, cnt k (journalsOf df) ≤ e.2) := by
  have htot : ∀ a b : String × Nat, countLE a b = false → countLE b a = true := by
    intro a b h
    simp only [countLE, decide_eq_true_eq, decide_eq_false_iff_not] at h ⊢
    omega
  have htrans : ∀ a b c : String × Nat,
      countLE a b = true → countLE b c = true → countLE a c = true := by
    intro a b c h1 h2
    simp only [countLE, decide_eq_true_eq] at h1 h2 ⊢
    omega
  have hpw : (valueCounts (journalsOf df)).Pairwise
      (fun a b : String × Nat => b.2 ≤ a.2) := by
    refine (pairwise_sortBy countLE htot htrans (countsInOrder (journalsOf df))).imp ?_
    intro a b h
    simpa [countLE] using h
  refine ⟨List.length_take_le n _, ?_, ?_, ?_, ?_⟩
  · exact hpw.sublist (List.take_sublist n _)
  · intro c
    have h1 : List.Sublist ((topJournals df n).filter (fun e => decide (e.2 = c)))
        ((valueCounts (journalsOf df)).filter (fun e => decide (e.2 = c))) :=
      (List.take_sublist n _).filter _
    rwa [valueCounts, sortBy_filter_countEq] at h1
  · intro e he
    have h1 : e ∈ valueCounts (journalsOf df) := (List.take_sublist n _).subset he
    have h2 : e ∈ countsInOrder (journalsOf df) :=
      (perm_sortBy countLE _).mem_iff.1 h1
    rcases mem_countsInOrder.1 h2 with ⟨hm, hc⟩
    exact ⟨hm, hc, hc ▸ cnt_pos hm⟩
  · intro k hk e he
    by_cases hkx : k ∈ journalsOf df
    · have hmem : (k, cnt k (journalsOf df)) ∈ valueCounts (journalsOf df) :=
        (perm_sortBy countLE _).mem_iff.2 (mem_countsInOrder.2 ⟨hkx, rfl⟩)
      rw [← List.take_append_drop n (valueCounts (journalsOf df))] at hmem
      rcases List.mem_append.1 hmem with h | h
      · exact absurd (List.mem_map_of_mem Prod.fst h) hk
      · have hsplit := List.pairwise_append.1
          (by rwa [← List.take_append_drop n (valueCounts (journalsOf df))] at hpw)
        exact hsplit.2.2 e he (k, cnt k (journalsOf df)) h
    · rw [cnt_eq_zero hkx]
      exact Nat.zero_le _

/-- Witness for the amended C5 at the concrete two-journal clean table
with `top_n = 5`. -/
theorem top_journals_witness :
    ((5 ≤ 5 ∧ 5 ≤ 20) ∧ (topJournals (clean_data dfTieJournals) 5).length ≤ 5) :=
  ⟨⟨by decide, by decide⟩,
    (top_journals_spec (clean_data dfTieJournals) 5 (by decide) (by decide)).1⟩

/-- The scan idxmaxRec finds the leftmost entry with maximal count: strictly
larger than everything before it, at least as large as everything after
it. -/
theorem idxmaxRec_spec :
    ∀ (l : List (Int × Nat)),
      (l = [] ∧ idxmaxRec l = none) ∨
      (∃ e l₁ l₂, idxmaxRec l = some e ∧ l = l₁ ++ e :: l₂ ∧
        (∀ x ∈ l₁, x.2 < e.2) ∧ (∀ x ∈ l₂, x.2 ≤ e.2)) := by
  intro l
  induction l with
  | nil => exact Or.inl ⟨rfl, rfl⟩
  | cons a as ih =>
    rcases ih with ⟨rfl, hnone⟩ | ⟨m, l₁, l₂, hm, hdecomp, h1, h2⟩
    · exact Or.inr ⟨a, [], [], by simp [idxmaxRec, hnone], by simp, by simp, by simp⟩
    · by_cases hlt : a.2 < m.2
      · refine Or.inr ⟨m, a :: l₁, l₂, ?_, by simp [hdecomp], ?_, h2⟩
        · simp [idxmaxRec, hm, hlt]
        · intro x hx
          rcases List.mem_cons.1 hx with rfl | hx
          · exact hlt
          · exact h1 x hx
      · refine Or.inr ⟨a, [], as, ?_, by simp, by simp, ?_⟩
        · simp [idxmaxRec, hm, hlt]
        · intro x hx
          rw [hdecomp] at hx
          rcases List.mem_append.1 hx with hx | hx
          · have := h1 x hx; omega
          · rcases List.mem_cons.1 hx with rfl | hx
            · omega
            · have := h2 x hx; omega

/-- Counting one year in the `year` column equals counting the rows
holding that year. -/
theorem cnt_filterMap_year (y : Int) :
    ∀ (l : List Row),
      cnt y (l.filterMap Row.year) = l.countP (fun r => decide (r.year = some y)) := by
  intro l
  induction l with
  | nil => rfl
  | cons r rs ih =>
    cases h : r.year with
    | none =>
      rw [List.filterMap_cons, h, List.countP_cons]
      simp [h, ih]
    | some z =>
      rw [List.filterMap_cons, h, cnt_cons, List.countP_cons, ih, h]
      by_cases hz : z = y <;> simp [hz]

/-- When every row has a year, the `year` column has one entry per row. -/
theorem length_filterMap_year :
    ∀ (l : List Row), (∀ r ∈ l, ∃ y, r.year = some y) →
      (l.filterMap Row.year).length = l.length := by
  intro l
  induction l with
  | nil => intro _; rfl
  | cons r rs ih =>
    intro h
    rcases h r (List.mem_cons_self r rs) with ⟨y, hy⟩
    rw [List.filterMap_cons, hy]
    simp [ih fun r' hr' => h r' (List.mem_cons_of_mem _ hr')]

/-- The scenario clean table of claim C6: four rows with years
[2019, 2020, 2020, 2021]. -/
def dfScenario6 : List Row :=
  clean_data
    [{ publish_time := some (.str "2019-01-01") },
     { publish_time := some (.str "2020-03-01") },
     { publish_time := some (.str "2020-06-01") },
     { publish_time := some (.str "2021-07-15") }]

/-- The clean table behind the C6 counterexample: a single row with year
2019, so that the (valid) range (2020, 2020) selects nothing. -/
def dfYear2019 : List Row :=
  clean_data [{ publish_time := some (.str "2019-05-01") }]

/-- Claim C6 counterexample: with the valid range (2020, 2020) on a clean
table whose only year is 2019, the filtered selection is empty, so no
maximum year and no mean are reported (in the code, `idxmax` raises on the
empty selection). -/
theorem trends_empty_range_counterexample :
    (2020 : Int) ≤ 2020 ∧
    (publicationTrends dfYear2019 2020 2020).maxYear = none ∧
    (publicationTrends dfYear2019 2020 2020).meanCount = none := by
  exact ⟨by decide, by decide, by decide⟩

/-- Claim C6 as amended: for every table and every year range with
`lo ≤ hi` that selects at least one row, the Publication Trends aggregate
keeps exactly the rows whose year lies in [lo, hi], counts rows per year in
strictly ascending year order, reports the mean of the per-year counts
(total in range divided by number of distinct years), and reports the
first year attaining the maximal count; on the scenario clean table with
years [2019, 2020, 2020, 2021] and range (2020, 2020) the filtered count
is 2, the max year 2020 and the mean 2.0.  (Without a selected row the
code instead fails: see the counterexample.) -/
theorem publication_trends_spec (df : List Row) (lo hi : Int) (hle : lo ≤ hi)
    (hne : ∃ r ∈ df, rowInRange lo hi r = true) :
    (∀ r : Row, r ∈ (publicationTrends df lo hi).filtered ↔
      (r ∈ df ∧ ∃ y, r.year = some y ∧ lo ≤ y ∧ y ≤ hi))
  ∧ (publicationTrends df lo hi).totalInRange = (publicationTrends df lo hi).filtered.length
  ∧ (publicationTrends df lo hi).yearly.Pairwise (fun a b => a.1 < b.1)
  ∧ (∀ e ∈ (publicationTrends df lo hi).yearly,
      e.2 = (publicationTrends df lo hi).filtered.countP
        (fun r => decide (r.year = some e.1)) ∧ 0 < e.2)
  ∧ (∀ y : Int, (∃ r ∈ (publicationTrends df lo hi).filtered, r.year = some y) →
      y ∈ (publicationTrends df lo hi).yearly.map Prod.fst)
  ∧ ((publicationTrends df lo hi).yearly.map Prod.snd).sum =
      (publicationTrends df lo hi).totalInRange
  ∧ (publicationTrends df lo hi).meanCount =
      some (((publicationTrends df lo hi).totalInRange : ℚ) /
        ((publicationTrends df lo hi).yearly.length : ℚ))
  ∧ (∃ y c, (publicationTrends df lo hi).maxYear = some y ∧
      (y, c) ∈ (publicationTrends df lo hi).yearly ∧
      ∀ e ∈ (publicationTrends df lo hi).yearly, e.2 ≤ c ∧ (e.2 = c → y ≤ e.1))
  ∧ (publicationTrends dfScenario6 2020 2020).totalInRange = 2
  ∧ (publicationTrends dfScenario6 2020 2020).maxYear = some 2020
  ∧ (publicationTrends dfScenario6 2020 2020).meanCount = some 2 := by
  have htotY : ∀ a b : Int × Nat, yearLE a b = false → yearLE b a = true := by
    intro a b h
    simp only [yearLE, decide_eq_true_eq, decide_eq_false_iff_not] at h ⊢
    omega
  have htransY : ∀ a b c : Int × Nat,
      yearLE a b = true → yearLE b c = true → yearLE a c = true := by
    intro a b c h1 h2
    simp only [yearLE, decide_eq_true_eq] at h1 h2 ⊢
    omega
  have hperm : List.Perm (publicationTrends df lo hi).yearly
      (countsInOrder ((publicationTrends df lo hi).filtered.filterMap Row.year)) :=
    perm_sortBy yearLE _
  have hle' : (publicationTrends df lo hi).yearly.Pairwise (fun a b => a.1 ≤ b.1) := by
    refine (pairwise_sortBy yearLE htotY htransY _).imp ?_
    intro a b h
    simpa [yearLE] using h
  have hnodupKeys :
      ((countsInOrder ((publicationTrends df lo hi).filtered.filterMap Row.year)).map
        Prod.fst).Nodup := by
    rw [map_fst_countsInOrder]
    exact nodup_keysInOrder _
  have hnodupY : ((publicationTrends df lo hi).yearly.map Prod.fst).Nodup :=
    ((hperm.map Prod.fst).nodup_iff).2 hnodupKeys
  have hneY : (publicationTrends df lo hi).yearly.Pairwise (fun a b => a.1 ≠ b.1) :=
    List.pairwise_map.1 hnodupY
  have hstrict : (publicationTrends df lo hi).yearly.Pairwise (fun a b => a.1 < b.1) :=
    (hle'.and hneY).imp fun h => lt_of_le_of_ne h.1 h.2
  have hyearF : ∀ r ∈ (publicationTrends df lo hi).filtered, ∃ y, r.year = some y := by
    intro r hr
    have h2 := (List.mem_filter.1 hr).2
    cases hy : r.year with
    | none => rw [rowInRange, hy] at h2; cases h2
    | some y => exact ⟨y, rfl⟩
  have hsum : ((publicationTrends df lo hi).yearly.map Prod.snd).sum =
      (publicationTrends df lo hi).totalInRange := by
    rw [(hperm.map Prod.snd).sum_eq, sum_snd_countsInOrder]
    exact length_filterMap_year _ hyearF
  have hYne : (publicationTrends df lo hi).yearly ≠ [] := by
    rcases hne with ⟨r, hr, hrir⟩
    have hrF : r ∈ (publicationTrends df lo hi).filtered := List.mem_filter.2 ⟨hr, hrir⟩
    rcases hyearF r hrF with ⟨y, hy⟩
    have h1 : y ∈ (publicationTrends df lo hi).filtered.filterMap Row.year :=
      List.mem_filterMap.2 ⟨r, hrF, hy⟩
    have h2 : (y, cnt y ((publicationTrends df lo hi).filtered.filterMap Row.year)) ∈
        countsInOrder ((publicationTrends df lo hi).filtered.filterMap Row.year) :=
      mem_countsInOrder.2 ⟨h1, rfl⟩
    exact List.ne_nil_of_mem (hperm.mem_iff.2 h2)
  have hlen : (publicationTrends df lo hi).yearly.length ≠ 0 := by
    simpa [List.length_eq_zero] using hYne
  refine ⟨?_, rfl, hstrict, ?_, ?_, hsum, ?_, ?_, by decide, by decide, ?_⟩
  · intro r
    rw [show (publicationTrends df lo hi).filtered = df.filter (rowInRange lo hi) from rfl,
      List.mem_filter]
    constructor
    · rintro ⟨h1, h2⟩
      refine ⟨h1, ?_⟩
      cases hy : r.year with
      | none => rw [rowInRange, hy] at h2; cases h2
      | some y =>
        rw [rowInRange, hy] at h2
        simp only [Bool.and_eq_true, decide_eq_true_eq] at h2
        exact ⟨y, rfl, h2.1, h2.2⟩
    · rintro ⟨h1, y, hy, hlo, hhi⟩
      refine ⟨h1, ?_⟩
      rw [rowInRange, hy]
      simp [hlo, hhi]
  · intro e he
    rcases mem_countsInOrder.1 (hperm.mem_iff.1 he) with ⟨hm, hc⟩
    constructor
    · rw [hc, cnt_filterMap_year]
    · exact hc ▸ cnt_pos hm
  · rintro y ⟨r, hr, hy⟩
    have h1 : y ∈ (publicationTrends df lo hi).filtered.filterMap Row.year :=
      List.mem_filterMap.2 ⟨r, hr, hy⟩
    have h2 : (y, cnt y ((publicationTrends df lo hi).filtered.filterMap Row.year)) ∈
        countsInOrder ((publicationTrends df lo hi).filtered.filterMap Row.year) :=
      mem_countsInOrder.2 ⟨h1, rfl⟩
    exact List.mem_map_of_mem Prod.fst (hperm.mem_iff.2 h2)
  · show (if (publicationTrends df lo hi).yearly.length = 0 then none
      else some (((publicationTrends df lo hi).yearly.map (fun e => (e.2 : ℚ))).sum /
        ((publicationTrends df lo hi).yearly.length : ℚ))) = _
    rw [if_neg hlen]
    congr 2
    have h1 : ((publicationTrends df lo hi).yearly.map (fun e => (e.2 : ℚ))).sum =
        (((publicationTrends df lo hi).yearly.map Prod.snd).map (fun n : Nat => (n : ℚ))).sum := by
      rw [List.map_map]; rfl
    rw [h1, ← Nat.cast_list_sum, hsum]
  · rcases idxmaxRec_spec (publicationTrends df lo hi).yearly with
      ⟨hY0, -⟩ | ⟨e, l₁, l₂, hm, hdec, h1, h2⟩
    · exact absurd hY0 hYne
    · refine ⟨e.1, e.2, ?_, ?_, ?_⟩
      · show (idxmaxRec (publicationTrends df lo hi).yearly).map Prod.fst = some e.1
        rw [hm]
        rfl
      · rw [hdec]
        exact List.mem_append_right l₁ (List.mem_cons_self e l₂)
      · intro e' he'
        have hmem' : e' ∈ l₁ ++ e :: l₂ := hdec ▸ he'
        constructor
        · rcases List.mem_append.1 hmem' with h | h
          · exact le_of_lt (h1 e' h)
          · rcases List.mem_cons.1 h with rfl | h
            · exact le_refl _
            · exact h2 e' h
        · intro heq
          rcases List.mem_append.1 hmem' with h | h
          · have := h1 e' h; omega
          · rcases List.mem_cons.1 h with rfl | h
            · exact le_refl _
            · have hpwY := hstrict
              rw [hdec] at hpwY
              have h4 := (List.pairwise_append.1 hpwY).2.1
              exact le_of_lt (List.rel_of_pairwise_cons h4 h)
  · have hy6 : (publicationTrends dfScenario6 2020 2020).yearly = [(2020, 2)] := by decide
    have hmean : (publicationTrends dfScenario6 2020 2020).meanCount =
        if (publicationTrends dfScenario6 2020 2020).yearly.length = 0 then none
        else some (((publicationTrends dfScenario6 2020 2020).yearly.map
            (fun e => (e.2 : ℚ))).sum /
          ((publicationTrends dfScenario6 2020 2020).yearly.length : ℚ)) := rfl
    rw [hmean, hy6]
    norm_num

/-- Witness for the amended C6 at the scenario clean table and range
(2020, 2020). -/
theorem publication_trends_witness :
    (((2020 : Int) ≤ 2020 ∧ ∃ r ∈ dfScenario6, rowInRange 2020 2020 r = true) ∧
      (publicationTrends dfScenario6 2020 2020).totalInRange =
        (publicationTrends dfScenario6 2020 2020).filtered.length) :=
  ⟨⟨by decide, by decide⟩,
    (publication_trends_spec dfScenario6 2020 2020 (by decide) (by decide)).2.1⟩
